import Mathlib

/-!
Verification of the request-analysis core of the CurlMan repository
(file `src/services/requestAnalyzer.js`): the curl-command parser
`parseCurlCommand`, the request analyzer `analyzeRequest` with its
authentication classification and body summary, and the security-header
audit performed inside `analyzeResponse`.

The JavaScript source is embedded shallowly.  Strings are Lean `String`s;
the JavaScript string operations that matter (`trim`, `replace`,
`split(":")`, `join(":")`, `startsWith`, `toUpperCase`, `toLowerCase`,
UTF-16 `length` and `substring`, `Blob` byte size) are modelled
character-by-character so that every theorem can be checked by evaluation.
Unicode-dependent operations (`toUpperCase`, `toLowerCase`, the whitespace
class of `\s`) are modelled on their ASCII behaviour, which coincides with
the JavaScript behaviour on every input considered here.
-/

/-- The double-quote character `"` (code point 34). -/
def dquote : Char := Char.ofNat 34

/-- The single-quote character (code point 39). -/
def squote : Char := Char.ofNat 39

/-- A quote character in the sense of the source regex `/["']/g`. -/
def isQuoteChar (c : Char) : Bool := c = dquote || c = squote

/-- ASCII whitespace as matched by the JavaScript regex class `\s`
(space, tab, line feed, carriage return, vertical tab, form feed).
`\s` also matches some non-ASCII Unicode spaces, which do not occur in
any input considered in this development. -/
def isJsWs (c : Char) : Bool :=
  c = ' ' || c = '\t' || c = '\n' || c = '\r' || c = Char.ofNat 11 || c = Char.ofNat 12

/-- JavaScript `String.prototype.trim`: drop whitespace from both ends. -/
def trimChars (cs : List Char) : List Char :=
  ((cs.dropWhile isJsWs).reverse.dropWhile isJsWs).reverse

/-- JavaScript `s.trim()` on strings. -/
def jsTrim (s : String) : String := ⟨trimChars s.data⟩

/-- JavaScript `replace(/\s+/g, " ")`: every maximal run of whitespace
characters becomes a single space. -/
def squashWs : List Char → List Char
  | [] => []
  | c :: cs =>
    if isJsWs c then
      match squashWs cs with
      | d :: ds => if d = ' ' then ' ' :: ds else ' ' :: d :: ds
      | [] => [' ']
    else c :: squashWs cs

/-- Line 62 of the source: `curlCommand.trim().replace(/\s+/g, ' ')`. -/
def normalizeCommand (s : String) : String := ⟨squashWs (trimChars s.data)⟩

/-- A character that the tokenizer regex alternative `[^\s"']` accepts. -/
def isPlainTokenChar (c : Char) : Bool := !(isJsWs c || isQuoteChar c)

/-- One unit of the tokenizer regex `[^\s"']+|"[^"]*"|'[^']*'` matched at
the head of `cs`: returns the consumed characters and the rest, or `none`
when no alternative matches here (whitespace, or a quote with no closing
quote later).  Quote characters are retained in the consumed text, exactly
as the source regex keeps them in the token. -/
def matchUnit : List Char → Option (List Char × List Char)
  | [] => none
  | c :: cs =>
    if c = dquote then
      match cs.dropWhile (fun x => !(x = dquote)) with
      | [] => none
      | _ :: rest => some (dquote :: cs.takeWhile (fun x => !(x = dquote)) ++ [dquote], rest)
    else if c = squote then
      match cs.dropWhile (fun x => !(x = squote)) with
      | [] => none
      | _ :: rest => some (squote :: cs.takeWhile (fun x => !(x = squote)) ++ [squote], rest)
    else if isJsWs c then none
    else some ((c :: cs).takeWhile isPlainTokenChar, (c :: cs).dropWhile isPlainTokenChar)

/-- Greedy repetition of `matchUnit` (the `(...)+` of the tokenizer regex):
the longest sequence of adjacent units starting here.  Every unit consumes
at least one character, so fuel `cs.length + 1` is always sufficient. -/
def matchUnitsAux : Nat → List Char → Option (List Char × List Char)
  | 0, _ => none
  | fuel + 1, cs =>
    match matchUnit cs with
    | none => none
    | some (u, rest) =>
      match matchUnitsAux fuel rest with
      | none => some (u, rest)
      | some (u2, rest2) => some (u ++ u2, rest2)

/-- Global regex matching (the `/g` flag): collect successive leftmost
matches, advancing one character past positions where no match starts.
Each step either consumes a token of at least one character or advances by
one character, so fuel `cs.length + 1` is always sufficient. -/
def tokenizeAux : Nat → List Char → List (List Char)
  | 0, _ => []
  | fuel + 1, cs =>
    match cs with
    | [] => []
    | _ :: cs2 =>
      match matchUnitsAux (cs.length + 1) cs with
      | some (tok, rest) => tok :: tokenizeAux fuel rest
      | none => tokenizeAux fuel cs2

/-- Line 66 of the source:
`curlCommand.match(/(?:[^\s"']+|"[^"]*"|'[^']*')+/g)`.
An empty result list models the `null` return of `match`. -/
def tokenize (s : String) : List String :=
  (tokenizeAux (s.data.length + 1) s.data).map (fun cs => ⟨cs⟩)

/-- JavaScript `replace(/["']/g, "")` (source lines 85, 96, 115): delete
every single- and double-quote character, wherever it occurs. -/
def stripQuotes (s : String) : String :=
  ⟨s.data.filter (fun c => !(isQuoteChar c))⟩

/-- List prefix test used to model JavaScript `startsWith`. -/
def isPrefixChars : List Char → List Char → Bool
  | [], _ => true
  | _ :: _, [] => false
  | p :: ps, c :: cs => p = c && isPrefixChars ps cs

/-- JavaScript `s.startsWith(pre)`. -/
def jsStartsWith (s pre : String) : Bool := isPrefixChars pre.data s.data

/-- ASCII case mapping of JavaScript `toUpperCase`. -/
def upperChar (c : Char) : Char :=
  if 'a' ≤ c && c ≤ 'z' then Char.ofNat (c.toNat - 32) else c

/-- JavaScript `s.toUpperCase()` (ASCII range). -/
def jsToUpper (s : String) : String := ⟨s.data.map upperChar⟩

/-- ASCII case mapping of JavaScript `toLowerCase`. -/
def lowerChar (c : Char) : Char :=
  if 'A' ≤ c && c ≤ 'Z' then Char.ofNat (c.toNat + 32) else c

/-- JavaScript `s.toLowerCase()` (ASCII range). -/
def jsToLower (s : String) : String := ⟨s.data.map lowerChar⟩

/-- JavaScript `split` on a one-character separator: `"a:b:c".split(":")`
gives `["a","b","c"]`, `"".split(":")` gives `[""]`.  The result is never
the empty list. -/
def splitChar (sep : Char) : List Char → List (List Char)
  | [] => [[]]
  | c :: cs =>
    if c = sep then [] :: splitChar sep cs
    else
      match splitChar sep cs with
      | [] => [[c]]
      | p :: ps => (c :: p) :: ps

/-- JavaScript `Array.prototype.join` on a one-character separator. -/
def joinSep (sep : Char) : List (List Char) → List Char
  | [] => []
  | [p] => p
  | p :: q :: ps => p ++ sep :: joinSep sep (q :: ps)

/-- Source lines 97 and 98:
`const [key, ...value] = headerLine.split(':');` followed by
`headers[key.trim()] = value.join(':').trim()`.  Returns the trimmed key
and the trimmed rejoined value.  `split` never returns an empty array, so
the first branch is unreachable. -/
def splitHeader (line : String) : String × String :=
  match splitChar ':' line.data with
  | [] => ("", "")
  | k :: vs => (⟨trimChars k⟩, ⟨trimChars (joinSep ':' vs)⟩)

/-- Property read of a JavaScript object modelled as an insertion-ordered
association list with unique keys: `obj[k]`. -/
def objGet (m : List (String × String)) (k : String) : Option String :=
  match m with
  | [] => none
  | p :: ps => if p.1 = k then some p.2 else objGet ps k

/-- Property write `obj[k] = v`: overwrite in place when the key exists,
append otherwise (JavaScript object update order). -/
def objSet (m : List (String × String)) (k v : String) : List (String × String) :=
  match m with
  | [] => [(k, v)]
  | p :: ps => if p.1 = k then (k, v) :: ps else p :: objSet ps k v

/-- The JavaScript `in` operator: `k in obj`. -/
def objMem (m : List (String × String)) (k : String) : Bool := (objGet m k).isSome

/-- The mutable `requestData` object of `parseCurlCommand` (source lines
72 to 78).  The `params` property of the source is always the empty object
and is never read or written anywhere in the repository, so it is not
carried here. -/
structure RequestData where
  method : String
  url : String
  headers : List (String × String)
  data : Option String
  deriving DecidableEq, Repr

/-- Source lines 72 to 78: the initial `requestData`. -/
def initialRequestData : RequestData :=
  { method := "GET", url := "", headers := [], data := none }

/-- The token loop of `parseCurlCommand` (source lines 80 to 125),
running over `parts[1..]`.  A token not starting with `-` is written to
`url` (the source has no first-time guard: every such token overwrites the
previous value).  `-H`/`--header`, `-X`/`--request` and
`-d`/`--data`/`--data-raw` each consume the following token as their
value, failing when no token follows; any other flag falls into the
`default` branch and is skipped without consuming a value. -/
def processTokens : List String → RequestData → Except String RequestData
  | [], rd => .ok rd
  | part :: rest, rd =>
    if jsStartsWith part "-" = false then
      processTokens rest { rd with url := stripQuotes part }
    else if part = "-H" || part = "--header" then
      match rest with
      | [] => .error ("Missing value for " ++ part)
      | v :: rest2 =>
        processTokens rest2
          { rd with headers :=
              objSet rd.headers (splitHeader (stripQuotes v)).1 (splitHeader (stripQuotes v)).2 }
    else if part = "-X" || part = "--request" then
      match rest with
      | [] => .error ("Missing value for " ++ part)
      | v :: rest2 => processTokens rest2 { rd with method := jsToUpper v }
    else if part = "-d" || part = "--data" || part = "--data-raw" then
      match rest with
      | [] => .error ("Missing value for " ++ part)
      | v :: rest2 =>
        -- The source sets `data` and then promotes the method when it is
        -- still `GET`; setting `data` does not touch `method`, so the
        -- promotion test reads the incoming method unchanged.
        processTokens rest2
          (if rd.method = "GET" then
            { rd with data := some (stripQuotes v), method := "POST" }
          else { rd with data := some (stripQuotes v) })
    else processTokens rest rd

/-- The regex constant `URL_REGEX = /^(http|https):\/\/[^ "]+$/` (source
line 58).  The alternation with anchors accepts exactly the strings that
start with `http://` or `https://` followed by at least one character,
none of which is a space or a double quote. -/
def urlRegexTest (s : String) : Bool :=
  (jsStartsWith s "http://" && urlRestOk (s.data.drop 7)) ||
  (jsStartsWith s "https://" && urlRestOk (s.data.drop 8))
where
  /-- The `[^ "]+$` part of the regex. -/
  urlRestOk (cs : List Char) : Bool :=
    !cs.isEmpty && cs.all (fun c => !(c = ' ' || c = dquote))

/-- Source lines 60 to 140: `parseCurlCommand`.  The guard on line 68 is
`!parts || !parts[0].toLowerCase() === 'curl'`; in JavaScript the second
disjunct compares a Boolean against a string with strict equality and is
therefore constantly false, so the guard fires exactly when `match`
returned null (no token at all).  After the token loop the url must be
non-empty and pass `URL_REGEX`.  The surrounding try/catch prefixes every
failure message. -/
def parseCurlCommand (cmd : String) : Except String RequestData :=
  let parts := tokenize (normalizeCommand cmd)
  if parts.isEmpty then
    .error "Error parsing curl command: Command must start with \x27curl\x27"
  else
    match processTokens parts.tail initialRequestData with
    | .error e => .error ("Error parsing curl command: " ++ e)
    | .ok rd =>
      if rd.url = "" then
        .error "Error parsing curl command: No URL specified in curl command"
      else if urlRegexTest rd.url = false then
        .error "Error parsing curl command: Invalid URL format"
      else .ok rd

/-- The successive values written to `requestData.url` by the token loop,
in loop order: the quote-stripped non-flag tokens, with the value consumed
by a recognized value flag skipped over exactly as the loop skips it. -/
def urlCandidates : List String → List String
  | [] => []
  | part :: rest =>
    if jsStartsWith part "-" = false then stripQuotes part :: urlCandidates rest
    else if part = "-H" || part = "--header" then
      match rest with
      | [] => []
      | _ :: rest2 => urlCandidates rest2
    else if part = "-X" || part = "--request" then
      match rest with
      | [] => []
      | _ :: rest2 => urlCandidates rest2
    else if part = "-d" || part = "--data" || part = "--data-raw" then
      match rest with
      | [] => []
      | _ :: rest2 => urlCandidates rest2
    else urlCandidates rest

/-- The seven flags that consume a value token. -/
def isValueFlag (t : String) : Bool :=
  t = "-H" || t = "--header" || t = "-X" || t = "--request" ||
  t = "-d" || t = "--data" || t = "--data-raw"

/-- A string containing no quote character. -/
def noQuotesB (s : String) : Bool := s.data.all (fun c => !(isQuoteChar c))

/-- The url, every header key and value, and the body of the descriptor
are free of quote characters. -/
def quoteFreeRD (rd : RequestData) : Bool :=
  noQuotesB rd.url &&
  rd.headers.all (fun p => noQuotesB p.1 && noQuotesB p.2) &&
  (match rd.data with
   | none => true
   | some s => noQuotesB s)

/-- The `analysis.authentication` object (source lines 17 to 20). -/
structure AuthFinding where
  present : Bool
  type : Option String
  deriving DecidableEq, Repr

/-- The rule table `authHeaders` (source lines 24 to 28): header name,
optional required value prefix, resulting label. -/
def authHeaders : List (String × Option String × String) :=
  [("Authorization", some "Bearer", "Bearer Token"),
   ("Authorization", some "Basic", "Basic Auth"),
   ("X-API-Key", none, "API Key")]

/-- One iteration of the classification loop (source lines 30 to 39):
when the header named by the rule exists, `present` is set to true, and
`type` is overwritten with the label when the prefix requirement holds
(or when the rule has no prefix). -/
def authStep (hdrs : List (String × String)) (acc : AuthFinding)
    (rule : String × Option String × String) : AuthFinding :=
  match objGet hdrs rule.1 with
  | none => acc
  | some v =>
    match rule.2.1 with
    | some pre =>
      if jsStartsWith v pre then { present := true, type := some rule.2.2 }
      else { present := true, type := acc.type }
    | none => { present := true, type := some rule.2.2 }

/-- The full classification loop over the rule table, starting from the
initial `{present: false, type: null}`. -/
def classifyAuth (hdrs : List (String × String)) : AuthFinding :=
  authHeaders.foldl (authStep hdrs) { present := false, type := none }

/-- A rule of the table matches (would set `type`): its header exists and
its prefix requirement, if any, holds for the header value. -/
def ruleMatches (hdrs : List (String × String))
    (rule : String × Option String × String) : Bool :=
  match objGet hdrs rule.1 with
  | none => false
  | some v =>
    match rule.2.1 with
    | some pre => jsStartsWith v pre
    | none => true

/-- Number of bytes of the UTF-8 encoding of one character. -/
def utf8Width (c : Char) : Nat :=
  if c.toNat < 0x80 then 1
  else if c.toNat < 0x800 then 2
  else if c.toNat < 0x10000 then 3
  else 4

/-- `new Blob([s]).size` (source line 45): the UTF-8 byte length. -/
def blobSize (s : String) : Nat := s.data.foldl (fun n c => n + utf8Width c) 0

/-- JavaScript `s.length`: the number of UTF-16 code units (characters
above U+FFFF count twice). -/
def utf16Len (s : String) : Nat :=
  s.data.foldl (fun n c => n + (if c.toNat < 0x10000 then 1 else 2)) 0

/-- JavaScript `substring(0, n)` measured in UTF-16 code units.  When the
cut would fall inside a surrogate pair the lone surrogate is dropped, as a
lone surrogate is not a Unicode scalar value; the cut falls on a pair only
for strings whose first `n` code units end inside a character above
U+FFFF, which happens for none of the inputs considered here. -/
def takeUtf16 (n : Nat) : List Char → List Char
  | [] => []
  | c :: cs =>
    let w := if c.toNat < 0x10000 then 1 else 2
    if w ≤ n then c :: takeUtf16 (n - w) cs else []

/-- Source lines 46 to 48:
`data.length > 200 ? data.substring(0, 200) + '...' : data`. -/
def contentPreview (s : String) : String :=
  if utf16Len s > 200 then String.mk (takeUtf16 200 s.data) ++ "..." else s

/-- The `analysis.body` object (source lines 41 to 54). -/
inductive BodySummary where
  | absent
  | presentB (sizeBytes : Nat) (preview : String)
  deriving DecidableEq, Repr

/-- Source lines 42 to 54: `if (requestData.data) {...} else {...}`.  The
condition is JavaScript truthiness of a nullable string: false for `null`
and false for the empty string. -/
def bodySummary (data : Option String) : BodySummary :=
  match data with
  | none => .absent
  | some s =>
    if s = "" then .absent
    else .presentB (blobSize s) (contentPreview s)

/-- Modelled from the spec wording of the body summary, amended for the
empty string: absent when the body is null or empty; otherwise present
with the UTF-8 byte length and a preview that is the full body when it is
at most 200 characters (UTF-16 code units, the length notion of the host
language) and otherwise the first 200 characters followed by the literal
suffix `...`. -/
def specBodySummary (data : Option String) : BodySummary :=
  match data with
  | none => .absent
  | some s =>
    if s = "" then .absent
    else .presentB (blobSize s)
      (if utf16Len s ≤ 200 then s else String.mk (takeUtf16 200 s.data) ++ "...")

/-- The analyzer output restricted to the parts computed by the source
itself: `url_analysis` (source lines 6 to 12) is produced by the host
URL parser, an external collaborator, and no claim concerns it. -/
structure RequestAnalysis where
  method : String
  headerCount : Nat
  headerDetails : List (String × String)
  authentication : AuthFinding
  body : BodySummary
  deriving DecidableEq, Repr

/-- Source lines 1 to 57: `analyzeRequest`, without the `url_analysis`
component (host URL parser). -/
def analyzeRequest (rd : RequestData) : RequestAnalysis :=
  { method := rd.method
    headerCount := rd.headers.length
    headerDetails := rd.headers
    authentication := classifyAuth rd.headers
    body := bodySummary rd.data }

/-- One line of the security-header table. -/
structure SecEntry where
  present : Bool
  description : String
  deriving DecidableEq, Repr

/-- The `securityHeaders` object literal built inside `analyzeResponse`
(source lines 168 to 185).  It reads nothing but `response.headers` (in
particular not the status code, and `validateStatus: () => true` on line
153 lets every status reach it), and looks each fixed name up with the
JavaScript `in` operator against the lower-cased keys the HTTP client
delivers. -/
def securityHeadersCheck (hdrs : List (String × String)) : List (String × SecEntry) :=
  [("Strict-Transport-Security",
    { present := objMem hdrs "strict-transport-security",
      description := "Enforces secure (HTTPS) connections to the server" }),
   ("X-Frame-Options",
    { present := objMem hdrs "x-frame-options",
      description := "Protects against clickjacking attacks" }),
   ("X-Content-Type-Options",
    { present := objMem hdrs "x-content-type-options",
      description := "Prevents MIME type sniffing" }),
   ("X-XSS-Protection",
    { present := objMem hdrs "x-xss-protection",
      description := "Enables cross-site scripting filter in browsers" })]

/-- Case-insensitive presence of a header name in a header map, the
matching notion of the specification. -/
def ciPresent (hdrs : List (String × String)) (name : String) : Bool :=
  hdrs.any (fun p => jsToLower p.1 = jsToLower name)

/-! ## Helper lemmas -/

theorem objGet_objSet_self (m : List (String × String)) (k v : String) :
    objGet (objSet m k v) k = some v := by
  induction m with
  | nil => simp [objSet, objGet]
  | cons p ps ih =>
    by_cases h : p.1 = k
    · simp [objSet, objGet, h]
    · simp [objSet, objGet, h, ih]

theorem mem_objSet (m : List (String × String)) (k v : String) (p : String × String)
    (h : p ∈ objSet m k v) : p = (k, v) ∨ p ∈ m := by
  induction m with
  | nil => simp [objSet] at h; simp [h]
  | cons q qs ih =>
    by_cases hq : q.1 = k
    · simp [objSet, hq] at h
      rcases h with h | h
      · exact Or.inl h
      · exact Or.inr (List.mem_cons_of_mem _ h)
    · simp [objSet, hq] at h
      rcases h with h | h
      · exact Or.inr (by simp [h])
      · rcases ih h with h2 | h2
        · exact Or.inl h2
        · exact Or.inr (List.mem_cons_of_mem _ h2)

theorem noQuotesB_stripQuotes (s : String) : noQuotesB (stripQuotes s) = true := by
  simp [noQuotesB, stripQuotes, List.all_eq_true]

theorem splitChar_ne_nil (sep : Char) (cs : List Char) : splitChar sep cs ≠ [] := by
  cases cs with
  | nil => simp [splitChar]
  | cons c cs =>
    by_cases h : c = sep
    · simp [splitChar, h]
    · simp only [splitChar, h, if_neg]
      cases hs : splitChar sep cs <;> simp

theorem splitChar_mem_sub (sep : Char) (cs : List Char) (piece : List Char)
    (hp : piece ∈ splitChar sep cs) : ∀ x ∈ piece, x ∈ cs := by
  induction cs generalizing piece with
  | nil => simp [splitChar] at hp; simp [hp]
  | cons c cs ih =>
    by_cases h : c = sep
    · simp [splitChar, h] at hp
      rcases hp with hp | hp
      · simp [hp]
      · intro x hx
        exact List.mem_cons_of_mem _ (ih piece hp x hx)
    · simp only [splitChar, h, if_neg, if_false] at hp
      rcases hs : splitChar sep cs with _ | ⟨p, ps⟩
      · exact absurd hs (splitChar_ne_nil sep cs)
      · rw [hs] at hp
        rcases List.mem_cons.mp hp with hp | hp
        · subst hp
          intro x hx
          rcases List.mem_cons.mp hx with hx | hx
          · simp [hx]
          · exact List.mem_cons_of_mem _ (ih p (by simp [hs]) x hx)
        · intro x hx
          exact List.mem_cons_of_mem _ (ih piece (by simp [hs, hp]) x hx)

theorem joinSep_mem (sep : Char) (ps : List (List Char)) (x : Char)
    (hx : x ∈ joinSep sep ps) : x = sep ∨ ∃ p ∈ ps, x ∈ p := by
  induction ps with
  | nil => simp [joinSep] at hx
  | cons p ps ih =>
    cases ps with
    | nil => simp [joinSep] at hx; exact Or.inr ⟨p, by simp, hx⟩
    | cons q qs =>
      simp only [joinSep, List.mem_append, List.mem_cons] at hx
      rcases hx with hx | hx | hx
      · exact Or.inr ⟨p, by simp, hx⟩
      · exact Or.inl hx
      · rcases ih hx with h | ⟨r, hr, hxr⟩
        · exact Or.inl h
        · exact Or.inr ⟨r, List.mem_cons_of_mem _ hr, hxr⟩

theorem trimChars_sub (cs : List Char) (x : Char) (hx : x ∈ trimChars cs) : x ∈ cs := by
  simp only [trimChars, List.mem_reverse] at hx
  have h1 := (List.dropWhile_sublist (l := (cs.dropWhile isJsWs).reverse) isJsWs).subset hx
  rw [List.mem_reverse] at h1
  exact (List.dropWhile_sublist (l := cs) isJsWs).subset h1

theorem splitChar_append_first (sep : Char) (xs ys : List Char) (h : sep ∉ xs) :
    splitChar sep (xs ++ sep :: ys) = xs :: splitChar sep ys := by
  induction xs with
  | nil => simp [splitChar]
  | cons x xs ih =>
    have hx : ¬ x = sep := by intro hc; exact h (by simp [hc])
    have hxs : sep ∉ xs := fun hc => h (List.mem_cons_of_mem _ hc)
    simp only [List.cons_append, splitChar, hx, if_neg, if_false, List.append_eq, ih hxs]

theorem joinSep_splitChar (sep : Char) (ys : List Char) :
    joinSep sep (splitChar sep ys) = ys := by
  induction ys with
  | nil => simp [splitChar, joinSep]
  | cons y ys ih =>
    by_cases hy : y = sep
    · simp only [splitChar, hy, if_pos]
      rcases hs : splitChar sep ys with _ | ⟨p, ps⟩
      · exact absurd hs (splitChar_ne_nil sep ys)
      · rw [hs] at ih
        simp [joinSep, ih]
    · simp only [splitChar, hy, if_neg, if_false]
      rcases hs : splitChar sep ys with _ | ⟨p, ps⟩
      · exact absurd hs (splitChar_ne_nil sep ys)
      · rw [hs] at ih
        cases ps with
        | nil =>
          simp only [joinSep] at ih
          subst ih
          simp [joinSep]
        | cons q qs =>
          simp only [joinSep] at ih
          rw [← ih]
          simp [joinSep]

theorem splitHeader_eq (pre post : String) (h : (':' : Char) ∉ pre.data) :
    splitHeader (pre ++ ":" ++ post) = (jsTrim pre, jsTrim post) := by
  have hdata : (pre ++ ":" ++ post).data = pre.data ++ ':' :: post.data := by
    simp [String.data_append]
  simp only [splitHeader, hdata, splitChar_append_first ':' pre.data post.data h,
    joinSep_splitChar, jsTrim]

theorem url_last_write (ts : List String) (rd : RequestData) :
    ∀ rd2, processTokens ts rd = .ok rd2 →
      rd2.url = (urlCandidates ts).getLastD rd.url := by
  induction ts, rd using processTokens.induct with
  | case1 rd =>
    intro rd2 h
    simp [processTokens] at h
    simp [urlCandidates, h]
  | case2 part rest rd h1 ih =>
    intro rd2 h
    rw [processTokens.eq_def] at h
    simp only [h1, if_true] at h
    rw [urlCandidates.eq_def]
    simp only [h1, if_true, List.getLastD_cons]
    simpa using ih rd2 h
  | case3 part rd h1 h2 =>
    intro rd2 h
    rw [processTokens.eq_def] at h
    simp [h1, h2] at h
  | case4 part rd h1 h2 v rest2 ih =>
    intro rd2 h
    rw [processTokens.eq_def] at h
    simp only [h1, h2, if_false, if_true] at h
    rw [urlCandidates.eq_def]
    simp only [h1, h2, if_false, if_true]
    simpa using ih rd2 h
  | case5 part rd h1 h2 h3 =>
    intro rd2 h
    rw [processTokens.eq_def] at h
    simp [h1, h2, h3] at h
  | case6 part rd h1 h2 h3 v rest2 ih =>
    intro rd2 h
    rw [processTokens.eq_def] at h
    simp only [h1, h2, h3, if_false, if_true] at h
    rw [urlCandidates.eq_def]
    simp only [h1, h2, h3, if_false, if_true]
    simpa using ih rd2 h
  | case7 part rd h1 h2 h3 h4 =>
    intro rd2 h
    rw [processTokens.eq_def] at h
    simp [h1, h2, h3, h4] at h
  | case8 part rd h1 h2 h3 h4 v rest2 ih =>
    intro rd2 h
    rw [processTokens.eq_def] at h
    simp only [h1, h2, h3, h4, if_false, if_true] at h
    rw [urlCandidates.eq_def]
    simp only [h1, h2, h3, h4, if_false, if_true]
    by_cases hm : rd.method = "GET" <;> simp only [hm, if_true, if_false] at h ih <;>
      simpa using ih rd2 h
  | case9 part rest rd h1 h2 h3 h4 ih =>
    intro rd2 h
    rw [processTokens.eq_def] at h
    simp only [h1, h2, h3, h4, if_false] at h
    rw [urlCandidates.eq_def]
    simp only [h1, h2, h3, h4, if_false]
    exact ih rd2 h

theorem splitHeader_noQuotes (line : String) (h : noQuotesB line = true) :
    noQuotesB (splitHeader line).1 = true ∧ noQuotesB (splitHeader line).2 = true := by
  simp only [noQuotesB, List.all_eq_true] at h
  rcases hs : splitChar ':' line.data with _ | ⟨k, vs⟩
  · exact absurd hs (splitChar_ne_nil ':' line.data)
  · constructor
    · simp only [splitHeader, hs, noQuotesB, List.all_eq_true]
      intro c hc
      have hk : c ∈ k := trimChars_sub _ _ hc
      exact h c (splitChar_mem_sub ':' line.data k (by simp [hs]) c hk)
    · simp only [splitHeader, hs, noQuotesB, List.all_eq_true]
      intro c hc
      have hj : c ∈ joinSep ':' vs := trimChars_sub _ _ hc
      rcases joinSep_mem ':' vs c hj with hcc | ⟨p, hp, hcp⟩
      · subst hcc
        decide
      · have hpk : p ∈ splitChar ':' line.data := by
          simp [hs, List.mem_cons]
          exact Or.inr hp
        exact h c (splitChar_mem_sub ':' line.data p hpk c hcp)

theorem quoteFree_invariant (ts : List String) (rd : RequestData) :
    ∀ rd2, processTokens ts rd = .ok rd2 →
      quoteFreeRD rd = true → quoteFreeRD rd2 = true := by
  induction ts, rd using processTokens.induct with
  | case1 rd =>
    intro rd2 h hq
    simp [processTokens] at h
    simpa [← h] using hq
  | case2 part rest rd h1 ih =>
    intro rd2 h hq
    rw [processTokens.eq_def] at h
    simp only [h1, if_true] at h
    refine ih rd2 h ?_
    simp only [quoteFreeRD] at hq ⊢
    simp only [Bool.and_eq_true] at hq ⊢
    exact ⟨⟨noQuotesB_stripQuotes part, hq.1.2⟩, hq.2⟩
  | case3 part rd h1 h2 =>
    intro rd2 h hq
    rw [processTokens.eq_def] at h
    simp [h1, h2] at h
  | case4 part rd h1 h2 v rest2 ih =>
    intro rd2 h hq
    rw [processTokens.eq_def] at h
    simp only [h1, h2, if_false, if_true] at h
    refine ih rd2 h ?_
    simp only [quoteFreeRD, Bool.and_eq_true] at hq ⊢
    refine ⟨⟨hq.1.1, ?_⟩, hq.2⟩
    simp only [List.all_eq_true]
    intro p hp
    rcases mem_objSet _ _ _ p hp with hk | hk
    · subst hk
      have := splitHeader_noQuotes (stripQuotes v) (noQuotesB_stripQuotes v)
      simp [this.1, this.2]
    · exact (List.all_eq_true.mp hq.1.2) p hk
  | case5 part rd h1 h2 h3 =>
    intro rd2 h hq
    rw [processTokens.eq_def] at h
    simp [h1, h2, h3] at h
  | case6 part rd h1 h2 h3 v rest2 ih =>
    intro rd2 h hq
    rw [processTokens.eq_def] at h
    simp only [h1, h2, h3, if_false, if_true] at h
    refine ih rd2 h ?_
    simpa only [quoteFreeRD] using hq
  | case7 part rd h1 h2 h3 h4 =>
    intro rd2 h hq
    rw [processTokens.eq_def] at h
    simp [h1, h2, h3, h4] at h
  | case8 part rd h1 h2 h3 h4 v rest2 ih =>
    intro rd2 h hq
    rw [processTokens.eq_def] at h
    simp only [h1, h2, h3, h4, if_false, if_true] at h
    refine ih rd2 h ?_
    by_cases hm : rd.method = "GET" <;>
      simp only [hm, if_true, if_false, quoteFreeRD, Bool.and_eq_true] at hq ⊢ <;>
      exact ⟨⟨hq.1.1, hq.1.2⟩, by simp [noQuotesB_stripQuotes]⟩
  | case9 part rest rd h1 h2 h3 h4 ih =>
    intro rd2 h hq
    rw [processTokens.eq_def] at h
    simp only [h1, h2, h3, h4, if_false] at h
    exact ih rd2 h hq

theorem objMem_lower_eq_ciPresent (m : List (String × String)) (name : String)
    (hlow : ∀ p ∈ m, jsToLower p.1 = p.1) :
    objMem m (jsToLower name) = ciPresent m name := by
  induction m with
  | nil => rfl
  | cons p ps ih =>
    have hp : jsToLower p.1 = p.1 := hlow p (by simp)
    have hps : ∀ q ∈ ps, jsToLower q.1 = q.1 :=
      fun q hq => hlow q (List.mem_cons_of_mem _ hq)
    simp only [objMem, objGet, ciPresent, List.any_cons]
    by_cases he : p.1 = jsToLower name
    · rw [if_pos he]
      have : jsToLower p.1 = jsToLower name := by rw [hp, he]
      simp [this]
    · rw [if_neg he]
      have hne : ¬ jsToLower p.1 = jsToLower name := by
        rw [hp]
        exact he
      simp only [hne, decide_False, Bool.false_or]
      exact ih hps

/-! ## Claims -/

/-- Claim C1, counterexample: the token loop does not keep the first
non-flag token as the URL.  On `curl https://a.com https://b.com` the
parser returns the second bare token as the URL, not the first. -/
theorem c1_counterexample :
    parseCurlCommand "curl https://a.com https://b.com" =
      .ok { method := "GET", url := "https://b.com", headers := [], data := none } ∧
    ("https://b.com" : String) ≠ "https://a.com" :=
  ⟨by rfl, by decide⟩

/-- Claim C1, amended: for every parsed command the URL in the resulting
descriptor is the last non-flag token encountered while iterating tokens
after the invocation keyword (each such token overwrites the previous
capture, and extra bare tokens never cause an error); flag values consumed
by `-H`, `-X`, `-d` and their long forms are skipped, not captured. -/
theorem c1_amended_url_capture (cmd : String) (rd : RequestData)
    (h : parseCurlCommand cmd = .ok rd) :
    rd.url = (urlCandidates (tokenize (normalizeCommand cmd)).tail).getLastD "" := by
  simp only [parseCurlCommand] at h
  by_cases hp : (tokenize (normalizeCommand cmd)).isEmpty = true
  · simp [hp] at h
  · simp [hp] at h
    rcases hpt : processTokens (tokenize (normalizeCommand cmd)).tail initialRequestData
      with e | rd0
    · rw [hpt] at h
      simp at h
    · rw [hpt] at h
      by_cases hu : rd0.url = ""
      · simp [hu] at h
      · simp only [hu, if_false] at h
        by_cases hv : urlRegexTest rd0.url = false
        · simp [hv] at h
        · simp only [hv, if_false] at h
          injection h with h
          subst h
          have hw := url_last_write _ initialRequestData rd0 hpt
          simpa [initialRequestData] using hw

/-- Claim C1, amended, witness at `curl https://a.com https://b.com`. -/
theorem c1_amended_url_capture_witness :
    ({ method := "GET", url := "https://b.com", headers := [], data := none } : RequestData).url =
      (urlCandidates
        (tokenize (normalizeCommand "curl https://a.com https://b.com")).tail).getLastD "" :=
  c1_amended_url_capture "curl https://a.com https://b.com" _ (by rfl)

/-- Claim C2: the source intends to reject a command whose first token is
not `curl` (its error message says so), but the guard
`!parts || !parts[0].toLowerCase() === 'curl'` compares a Boolean against
a string with strict equality, which is always false, so a command
starting with any other word parses successfully.  Evaluating the parser
at the failing input `wget https://example.com` yields a descriptor, not
a ParseError. -/
theorem c2_non_curl_accepted :
    parseCurlCommand "wget https://example.com" =
      .ok { method := "GET", url := "https://example.com", headers := [], data := none } := by
  rfl

/-- Claim C3, counterexample: an explicit `-X GET` earlier in the command
does not disable the body promotion.  On `curl -X GET -d x https://e.com`
the parser returns method `POST`, while the claim requires the method to
stay `GET`. -/
theorem c3_counterexample :
    parseCurlCommand "curl -X GET -d x https://e.com" =
      .ok { method := "POST", url := "https://e.com", headers := [], data := some "x" } ∧
    ("POST" : String) ≠ "GET" :=
  ⟨by rfl, by decide⟩

/-- Claim C3, amended: processing a `-d`/`--data`/`--data-raw` flag sets
the body to the quote-stripped value and promotes the method to POST
exactly when the method string equals `GET` at that moment, whether that
`GET` is the default or was set by an explicit earlier `-X GET`; a method
set to any other value by an earlier `-X` is never overridden. -/
theorem c3_amended_promotion (flag v : String) (ts : List String) (rd : RequestData)
    (hf : flag = "-d" ∨ flag = "--data" ∨ flag = "--data-raw") :
    processTokens (flag :: v :: ts) rd =
      processTokens ts
        { rd with data := some (stripQuotes v),
                  method := if rd.method = "GET" then "POST" else rd.method } := by
  have goal2 : processTokens ts
      (if rd.method = "GET" then
        { rd with data := some (stripQuotes v), method := "POST" }
      else { rd with data := some (stripQuotes v) }) =
      processTokens ts
        { rd with data := some (stripQuotes v),
                  method := if rd.method = "GET" then "POST" else rd.method } := by
    by_cases hm : rd.method = "GET" <;> simp [hm]
  rcases hf with h | h | h <;> subst h <;> exact goal2

/-- Claim C3, amended, witness at `-d x` from the initial state. -/
theorem c3_amended_promotion_witness :
    processTokens ["-d", "x"] initialRequestData =
      processTokens []
        { initialRequestData with
          data := some (stripQuotes "x"),
          method := if initialRequestData.method = "GET" then "POST"
                    else initialRequestData.method } :=
  c3_amended_promotion "-d" "x" [] initialRequestData (Or.inl rfl)

/-- Claim C4: a flag other than `-H`/`--header`, `-X`/`--request`,
`-d`/`--data`/`--data-raw` falls into the `default` branch of the switch:
it is skipped without consuming a value and without failing, so the rest
of the command parses exactly as it would without the unknown flag. -/
theorem c4_unknown_flag_ignored (flag : String) (ts : List String) (rd : RequestData)
    (h1 : jsStartsWith flag "-" = true) (h2 : isValueFlag flag = false) :
    processTokens (flag :: ts) rd = processTokens ts rd := by
  have hH : ¬ flag = "-H" := fun hc => by simp [isValueFlag, hc] at h2
  have hHl : ¬ flag = "--header" := fun hc => by simp [isValueFlag, hc] at h2
  have hX : ¬ flag = "-X" := fun hc => by simp [isValueFlag, hc] at h2
  have hXl : ¬ flag = "--request" := fun hc => by simp [isValueFlag, hc] at h2
  have hd : ¬ flag = "-d" := fun hc => by simp [isValueFlag, hc] at h2
  have hdl : ¬ flag = "--data" := fun hc => by simp [isValueFlag, hc] at h2
  have hdr : ¬ flag = "--data-raw" := fun hc => by simp [isValueFlag, hc] at h2
  rw [processTokens.eq_def]
  simp [h1, hH, hHl, hX, hXl, hd, hdl, hdr]

/-- Claim C4, witness: `-L` is skipped and the URL still parses. -/
theorem c4_unknown_flag_ignored_witness :
    processTokens ["-L", "https://example.com"] initialRequestData =
      processTokens ["https://example.com"] initialRequestData :=
  c4_unknown_flag_ignored "-L" ["https://example.com"] initialRequestData
    (by decide) (by decide)

/-- Claim C5: the classification fold evaluates the fixed rule table in
order and overwrites `type` on every match, so `type` is the label of the
last matching rule in table order (`none` when no rule matches); in
particular `Authorization: Bearer xyz` together with `X-API-Key: k`
yields `API Key`. -/
theorem c5_last_matching_rule (hdrs : List (String × String)) :
    ((classifyAuth hdrs).type =
      ((authHeaders.filter (ruleMatches hdrs)).getLast?).map (fun r => r.2.2)) ∧
    (classifyAuth [("Authorization", "Bearer xyz"), ("X-API-Key", "k")]).type =
      some "API Key" := by
  constructor
  · rcases ha : objGet hdrs "Authorization" with _ | v
    · rcases hk : objGet hdrs "X-API-Key" with _ | w <;>
        simp [classifyAuth, authHeaders, authStep, ruleMatches, ha, hk]
    · by_cases hb : jsStartsWith v "Bearer" = true <;>
        by_cases hc : jsStartsWith v "Basic" = true <;>
          rcases hk : objGet hdrs "X-API-Key" with _ | w <;>
            simp [classifyAuth, authHeaders, authStep, ruleMatches, ha, hb, hc, hk]
  · rfl

/-- Claim C6: `present` is true exactly when one of the two listed header
names exists, independent of any prefix match; `Authorization: Digest x`
gives `present` true with `type` null. -/
theorem c6_presence_independent_of_prefix (hdrs : List (String × String)) :
    ((classifyAuth hdrs).present =
      ((objGet hdrs "Authorization").isSome || (objGet hdrs "X-API-Key").isSome)) ∧
    classifyAuth [("Authorization", "Digest x")] = { present := true, type := none } := by
  constructor
  · rcases ha : objGet hdrs "Authorization" with _ | v
    · rcases hk : objGet hdrs "X-API-Key" with _ | w <;>
        simp [classifyAuth, authHeaders, authStep, ha, hk]
    · by_cases hb : jsStartsWith v "Bearer" = true <;>
        by_cases hc : jsStartsWith v "Basic" = true <;>
          rcases hk : objGet hdrs "X-API-Key" with _ | w <;>
            simp [classifyAuth, authHeaders, authStep, ha, hb, hc, hk]
  · rfl

/-- Claim C7, counterexample: the header value does not merely lose its
surrounding quotes — a quote in the interior of the token is deleted as
well.  The header token `'X-C: a"b'` produces the value `ab`, while
stripping only the surrounding quotes would produce `a"b`. -/
theorem c7_counterexample :
    parseCurlCommand "curl -H \x27X-C: a\x22b\x27 https://e.com" =
      .ok { method := "GET", url := "https://e.com",
            headers := [("X-C", "ab")], data := none } ∧
    ("ab" : String) ≠ "a\x22b" :=
  ⟨by rfl, by decide⟩

/-- Claim C7, amended: for every `-H`/`--header` flag the value token has
every quote character removed (wherever it appears, not only surrounding
ones), the result is split on the first colon only, both sides are
trimmed, and the pair is assigned into the headers map, a later occurrence
of the same key overwriting an earlier one.  The hypotheses exhibit the
quote-stripped value as a colon-free key part, the first colon, and the
remainder. -/
theorem c7_amended_header_assignment (flag v pre post : String)
    (ts : List String) (rd : RequestData)
    (hf : flag = "-H" ∨ flag = "--header")
    (hsplit : stripQuotes v = pre ++ ":" ++ post)
    (hpre : (':' : Char) ∉ pre.data) :
    (processTokens (flag :: v :: ts) rd =
      processTokens ts
        { rd with headers := objSet rd.headers (jsTrim pre) (jsTrim post) }) ∧
    objGet (objSet rd.headers (jsTrim pre) (jsTrim post)) (jsTrim pre) =
      some (jsTrim post) := by
  have hsh : splitHeader (stripQuotes v) = (jsTrim pre, jsTrim post) := by
    rw [hsplit]
    exact splitHeader_eq pre post hpre
  constructor
  · have step : processTokens ts
        { rd with headers :=
            objSet rd.headers (splitHeader (stripQuotes v)).1 (splitHeader (stripQuotes v)).2 } =
        processTokens ts
          { rd with headers := objSet rd.headers (jsTrim pre) (jsTrim post) } := by
      rw [hsh]
    rcases hf with h | h <;> subst h <;> exact step
  · exact objGet_objSet_self rd.headers (jsTrim pre) (jsTrim post)

/-- Claim C7, amended, witness: the header token `'X-Custom: a:b'` is
split at the first colon, giving key `X-Custom` and value `a:b`. -/
theorem c7_amended_header_assignment_witness :
    (processTokens ["-H", "\x27X-Custom: a:b\x27"] initialRequestData =
      processTokens []
        { initialRequestData with
          headers := objSet initialRequestData.headers (jsTrim "X-Custom") (jsTrim " a:b") }) ∧
    objGet (objSet initialRequestData.headers (jsTrim "X-Custom") (jsTrim " a:b"))
        (jsTrim "X-Custom") = some (jsTrim " a:b") :=
  c7_amended_header_assignment "-H" "\x27X-Custom: a:b\x27" "X-Custom" " a:b"
    [] initialRequestData (Or.inl rfl) (by decide) (by decide)

/-- Claim C8, counterexample: the body condition is JavaScript truthiness,
so a present but empty body is reported as absent, while the claim
requires present with zero size for every non-null body. -/
theorem c8_counterexample :
    bodySummary (some "") = .absent ∧ BodySummary.absent ≠ .presentB 0 "" :=
  ⟨rfl, by decide⟩

/-- Claim C8, amended: the body summary is absent when the body is null or
the empty string; otherwise it is present with `sizeBytes` the UTF-8 byte
length of the body and `preview` the full body when it is at most 200
characters (UTF-16 code units) and otherwise the first 200 characters
followed by the literal suffix `...`.  The second and third conjuncts show
the byte size differing from the character count on multi-byte text: five
two-byte characters give ten bytes and five characters. -/
theorem c8_amended_body_summary (data : Option String) :
    (bodySummary data = specBodySummary data) ∧
    bodySummary (some "ééééé") = .presentB 10 "ééééé" ∧
    ("ééééé" : String).length = 5 := by
  refine ⟨?_, by rfl, by rfl⟩
  rcases data with _ | s
  · rfl
  · by_cases he : s = ""
    · simp [bodySummary, specBodySummary, he]
    · simp only [bodySummary, specBodySummary, he, if_false, contentPreview]
      by_cases hl : 200 < utf16Len s
      · rw [if_pos hl, if_neg (by omega)]
      · rw [if_neg hl, if_pos (by omega)]

/-- Claim C9: the security-header table always has exactly the four fixed
keys with their fixed descriptions, for every response header map —
including the empty map of a headerless error response; the status code is
not consulted at all (the table is built from `response.headers` only, and
`validateStatus: () => true` lets every status, 500 included, reach it).
`present` is case-insensitive presence: the source tests the lower-case
name with `in` against the header map, whose keys the HTTP client
delivers lower-cased — the hypothesis records that invariant. -/
theorem c9_security_audit (hdrs : List (String × String))
    (hlow : ∀ p ∈ hdrs, jsToLower p.1 = p.1) :
    securityHeadersCheck hdrs =
      [("Strict-Transport-Security",
        { present := ciPresent hdrs "Strict-Transport-Security",
          description := "Enforces secure (HTTPS) connections to the server" }),
       ("X-Frame-Options",
        { present := ciPresent hdrs "X-Frame-Options",
          description := "Protects against clickjacking attacks" }),
       ("X-Content-Type-Options",
        { present := ciPresent hdrs "X-Content-Type-Options",
          description := "Prevents MIME type sniffing" }),
       ("X-XSS-Protection",
        { present := ciPresent hdrs "X-XSS-Protection",
          description := "Enables cross-site scripting filter in browsers" })] := by
  have e1 : objMem hdrs "strict-transport-security" =
      ciPresent hdrs "Strict-Transport-Security" := by
    rw [show ("strict-transport-security" : String) =
        jsToLower "Strict-Transport-Security" from rfl]
    exact objMem_lower_eq_ciPresent hdrs "Strict-Transport-Security" hlow
  have e2 : objMem hdrs "x-frame-options" = ciPresent hdrs "X-Frame-Options" := by
    rw [show ("x-frame-options" : String) = jsToLower "X-Frame-Options" from rfl]
    exact objMem_lower_eq_ciPresent hdrs "X-Frame-Options" hlow
  have e3 : objMem hdrs "x-content-type-options" =
      ciPresent hdrs "X-Content-Type-Options" := by
    rw [show ("x-content-type-options" : String) =
        jsToLower "X-Content-Type-Options" from rfl]
    exact objMem_lower_eq_ciPresent hdrs "X-Content-Type-Options" hlow
  have e4 : objMem hdrs "x-xss-protection" = ciPresent hdrs "X-XSS-Protection" := by
    rw [show ("x-xss-protection" : String) = jsToLower "X-XSS-Protection" from rfl]
    exact objMem_lower_eq_ciPresent hdrs "X-XSS-Protection" hlow
  simp only [securityHeadersCheck, e1, e2, e3, e4]

/-- Claim C9, witness at the header map of a headerless (for example 500)
response: all four keys are present with `present` false. -/
theorem c9_security_audit_witness :
    securityHeadersCheck [] =
      [("Strict-Transport-Security",
        { present := ciPresent [] "Strict-Transport-Security",
          description := "Enforces secure (HTTPS) connections to the server" }),
       ("X-Frame-Options",
        { present := ciPresent [] "X-Frame-Options",
          description := "Protects against clickjacking attacks" }),
       ("X-Content-Type-Options",
        { present := ciPresent [] "X-Content-Type-Options",
          description := "Prevents MIME type sniffing" }),
       ("X-XSS-Protection",
        { present := ciPresent [] "X-XSS-Protection",
          description := "Enables cross-site scripting filter in browsers" })] :=
  c9_security_audit [] (by simp)

/-- Claim C10: the token loop passes the captured URL, every `-H` header
line, and every data value through `replace(/["\x27]/g, "")`, so starting
from a quote-free descriptor the descriptor stays quote-free: no quote
character — interior ones included — survives into the url, the header
keys and values, or the body. -/
theorem c10_all_quotes_removed (ts : List String) (rd rd2 : RequestData)
    (h : processTokens ts rd = .ok rd2) (hq : quoteFreeRD rd = true) :
    quoteFreeRD rd2 = true :=
  quoteFree_invariant ts rd rd2 h hq

/-- Claim C10, witness: the body token `'{"a":1}'` is stored as `{a:1}`
with its interior quotes deleted, and the resulting descriptor is
quote-free. -/
theorem c10_all_quotes_removed_witness :
    (processTokens ["--data", "\x27\x7b\x22a\x22:1\x7d\x27", "https://e.com"]
        initialRequestData =
      .ok { method := "POST", url := "https://e.com", headers := [],
            data := some "\x7ba:1\x7d" }) ∧
    quoteFreeRD { method := "POST", url := "https://e.com", headers := [],
                  data := some "\x7ba:1\x7d" } = true :=
  ⟨by rfl,
   c10_all_quotes_removed ["--data", "\x27\x7b\x22a\x22:1\x7d\x27", "https://e.com"]
     initialRequestData
     { method := "POST", url := "https://e.com", headers := [], data := some "\x7ba:1\x7d" }
     (by rfl) (by rfl)⟩
